import Mathlib

/-!
Verification of the cazt note-commitment hashing pipeline and private-log
decryption protocol, shallowly embedded from the TypeScript sources
(cli/utils/helpers.ts, cli/utils/note.ts, cli/utils/log.ts).

External SDK primitives (the poseidon2 hash, elliptic-curve operations and
the AES block cipher) are opaque collaborators: they are modelled as
parameters of the embedded operations, so every theorem quantifies over
them and states only how this repository composes them.
-/

namespace Cazt

/-- The prime modulus of the scalar field Fr used throughout the ledger
(BN254 scalar field).  Field elements are modelled as natural numbers
together with the invariant that they are below this modulus. -/
def frModulus : Nat :=
  21888242871839275222246405745257275088548364400416034343698204186575808495617

/-- The error taxonomy.  Each constructor corresponds to one throw site of
the embedded code (the message string in the source), named after the
taxonomy of the specification.  `invalidPoint` and `badPadding` model the
errors of the external curve/cipher library propagating uncaught through
`decryptRawPrivateLog`; `decryptionFailed` is the single opaque error the
specification describes, which the code never constructs. -/
inductive Err where
  | invalidHexDigits
  | invalidHexValue
  | frOutOfRange
  | missingItems
  | missingSlot
  | siloRequiresContract
  | uniqueRequiresSiloed
  | partialRequiresTwoItems
  | missingParameter (name : String)
  | lengthMismatch
  | invalidAddress
  | invalidPoint
  | badPadding
  | decryptionFailed
  deriving DecidableEq, Repr

/-- JavaScript truthiness of an optional string argument: `undefined` and
the empty string are falsy, every other string is truthy. -/
def truthy : Option String → Bool
  | some s => !s.toList.isEmpty
  | none => false

/-- `value.startsWith('0x')`: the first two characters are `0` and `x`. -/
def hexPrefixed (s : String) : Bool :=
  match s.toList with
  | c1 :: c2 :: _ => c1 = Char.ofNat 48 && c2 = Char.ofNat 120
  | _ => false

/-- Hexadecimal digit predicate (0-9, a-f, A-F), as accepted by `BigInt`. -/
def isHexDigit (c : Char) : Bool :=
  (Char.ofNat 48 ≤ c && c ≤ Char.ofNat 57) ||
  (Char.ofNat 97 ≤ c && c ≤ Char.ofNat 102) ||
  (Char.ofNat 65 ≤ c && c ≤ Char.ofNat 70)

/-- Numeric value of a hexadecimal digit character. -/
def hexVal (c : Char) : Nat :=
  if Char.ofNat 48 ≤ c && c ≤ Char.ofNat 57 then c.toNat - 48
  else if Char.ofNat 97 ≤ c && c ≤ Char.ofNat 102 then c.toNat - 87
  else if Char.ofNat 65 ≤ c && c ≤ Char.ofNat 70 then c.toNat - 55
  else 0

/-- Big-endian value of a list of hexadecimal digit characters. -/
def hexCharsToNat (cs : List Char) : Nat :=
  cs.foldl (fun acc c => 16 * acc + hexVal c) 0

/-- `BigInt("0x" + digits)`: succeeds on a nonempty all-hex digit string,
throws a SyntaxError otherwise. -/
def bigIntOfHex (cs : List Char) : Option Nat :=
  if cs.isEmpty then none
  else if cs.all isHexDigit then some (hexCharsToNat cs) else none

/-- Character of a hexadecimal digit (lowercase, as produced by
`BigInt.prototype.toString(16)`). -/
def hexDigitChar (n : Nat) : Char :=
  if n < 10 then Char.ofNat (48 + n) else Char.ofNat (87 + n)

/-- Big-endian base-`base` digits of `n`, fixed width `w`: the leading
digit is `n / base ^ (w - 1)` (reduced mod `base`) and the remaining
digits expand the remainder. -/
def beDigits (base : Nat) : Nat → Nat → List Nat
  | 0, _ => []
  | w + 1, n => n / base ^ w % base :: beDigits base w (n % base ^ w)

/-- `Fr.toString()`: the 0x-prefixed hexadecimal rendering of a field
element, left-zero-padded to 64 digits.  On the reachable domain
(values below the modulus, hence below 16^64) this agrees with
`'0x' + value.toString(16).padStart(64, '0')`. -/
def frToString (n : Nat) : String :=
  String.mk (Char.ofNat 48 :: Char.ofNat 120 :: (beDigits 16 64 n).map hexDigitChar)

/-- `field.toBuffer()`: the 32-byte big-endian encoding of a field element. -/
def fieldToBytes32 (n : Nat) : List Nat := beDigits 256 32 n

/-- Big-endian value of a byte list (`toBigIntBE`). -/
def beBytesToNat (bs : List Nat) : Nat :=
  bs.foldl (fun acc b => 256 * acc + b) 0

/-- The UTF-8 bytes of a string (`Buffer.from(value, 'utf8')`). -/
def utf8Bytes (s : String) : List Nat :=
  s.toUTF8.toList.map (fun b => b.toNat)

/-- `Helpers.stringToFr`: a 0x-prefixed string must have an even number of
hex digits (else the code throws 'odd number of digits') and is parsed by
`BigInt` as a big-endian integer; any other string is treated as UTF-8
bytes, right-padded with zeros or truncated to 32 bytes, and read as a
big-endian field element.  The `Fr` constructor rejects values at or above
the modulus. -/
def stringToFr (value : String) : Except Err Nat :=
  if hexPrefixed value then
    let hexPart := value.toList.drop 2
    if hexPart.length % 2 ≠ 0 then .error .invalidHexDigits
    else
      match bigIntOfHex hexPart with
      | none => .error .invalidHexValue
      | some n => if n < frModulus then .ok n else .error .frOutOfRange
  else
    let buffer := utf8Bytes value
    let padded := buffer.take 32 ++ List.replicate (32 - min buffer.length 32) 0
    let n := beBytesToNat padded
    if n < frModulus then .ok n else .error .frOutOfRange

/-- `Helpers.normalizeAddress`: left-zero-pad the hex part of an address
string to 64 digits, adding the 0x prefix when absent. -/
def normalizeAddress (address : String) : String :=
  if hexPrefixed address then
    let hex := address.toList.drop 2
    "0x" ++ String.mk (List.replicate (64 - min hex.length 64) (Char.ofNat 48)) ++ String.mk hex
  else
    "0x" ++ String.mk (List.replicate (64 - min address.length 64) (Char.ofNat 48)) ++ address.toList.asString

/-- `AztecAddress.fromString(...).toField()`: parses a 0x-prefixed 64-digit
hex string into a field element; anything else is rejected by the SDK.
The exact failure condition of the external parser does not decide any
claim; only the success path (a well-formed 32-byte hex address) does. -/
def aztecAddressToField (s : String) : Except Err Nat :=
  if hexPrefixed s then
    let digits := s.toList.drop 2
    if digits.length = 64 && digits.all isHexDigit then
      let n := hexCharsToNat digits
      if n < frModulus then .ok n else .error .invalidAddress
    else .error .invalidAddress
  else .error .invalidAddress

/-- Sequential effectful map over `Except`, mirroring `Array.prototype.map`
with a throwing callback: elements are processed left to right and the
first thrown error aborts the whole map. -/
def mapEx (f : α → Except Err β) : List α → Except Err (List β)
  | [] => .ok []
  | a :: as =>
    match f a with
    | .error e => .error e
    | .ok b =>
      match mapEx f as with
      | .error e => .error e
      | .ok bs => .ok (b :: bs)

/-! ## Note-commitment hashing pipeline (cli/utils/note.ts, `computeNoteHash`) -/

/-- Modelled from the spec: the per-stage domain-separation tags of the
external SDK's `GeneratorIndex` enum (`@aztec/constants`, not part of this
repository).  The specification requires the three note-hash stage tags to
be pairwise distinct; the values follow the SDK enum declaration order. -/
def NOTE_HASH : Nat := 1

/-- Modelled from the spec: the SDK `GeneratorIndex.UNIQUE_NOTE_HASH` tag. -/
def UNIQUE_NOTE_HASH : Nat := 3

/-- Modelled from the spec: the SDK `GeneratorIndex.SILOED_NOTE_HASH` tag. -/
def SILOED_NOTE_HASH : Nat := 4

/-- Modelled from the spec: the SDK `GeneratorIndex.SYMMETRIC_KEY` tag used
by the log-decryption KDF. -/
def SYMMETRIC_KEY : Nat := 5

/-- Modelled from the spec: the SDK `GeneratorIndex.SYMMETRIC_KEY_2` tag
used by the log-decryption KDF. -/
def SYMMETRIC_KEY_2 : Nat := 6

/-- The parameters of `NoteUtils.computeNoteHash`, as extracted from the
parsed JSON parameter record.  An absent JSON field is `none`; the
`partial` flag defaults to `false` (`p.partial || false`). -/
structure NoteHashParams where
  rawNoteHash : Option String := none
  siloedNoteHash : Option String := none
  noteItems : Option (List String) := none
  storageSlot : Option String := none
  partialMode : Bool := false
  contractAddress : Option String := none
  noteNonce : Option String := none

/-- The result of `computeNoteHash`: either the bare raw-hash string, or an
object carrying whichever of the rawNoteHash / siloedNoteHash /
uniqueNoteHash keys were set. -/
inductive NoteHashResult where
  | bare (s : String)
  | obj (rawNoteHash siloedNoteHash uniqueNoteHash : Option String)
  deriving DecidableEq, Repr

/-- The four mutable locals of `computeNoteHash` after the starting-point
selection: the raw and siloed hashes as field elements and as the strings
that will be returned. -/
structure NoteHashState where
  rawNoteHash : Option Nat := none
  rawNoteHashStr : Option String := none
  siloedNoteHash : Option Nat := none
  siloedNoteHashStr : Option String := none
  deriving DecidableEq, Repr

/-- The starting-point selection of `computeNoteHash` (note.ts lines
396-465): a truthy `siloedNoteHash` input wins (and requires a contract
address), then a truthy `rawNoteHash` input, and otherwise the raw hash is
computed from `noteItems` and `storageSlot`, in standard or partial mode.
`H` is the external `poseidon2HashWithSeparator`. -/
def startingPoint (H : List Nat → Nat → Nat) (q : NoteHashParams) :
    Except Err NoteHashState :=
  if truthy q.siloedNoteHash then
    if !truthy q.contractAddress then .error .siloRequiresContract
    else
      match stringToFr (q.siloedNoteHash.getD "") with
      | .error e => .error e
      | .ok v => .ok { siloedNoteHash := some v, siloedNoteHashStr := q.siloedNoteHash }
  else if truthy q.rawNoteHash then
    match stringToFr (q.rawNoteHash.getD "") with
    | .error e => .error e
    | .ok v => .ok { rawNoteHash := some v, rawNoteHashStr := q.rawNoteHash }
  else
    match q.noteItems with
    | none => .error .missingItems
    | some items =>
      match q.storageSlot with
      | none => .error .missingSlot
      | some slotStr =>
        match stringToFr slotStr with
        | .error e => .error e
        | .ok slot =>
          if q.partialMode then
            if items.length < 2 then .error .partialRequiresTwoItems
            else
              match mapEx stringToFr items.dropLast with
              | .error e => .error e
              | .ok privateItemsFr =>
                match stringToFr (items.getLastD "") with
                | .error e => .error e
                | .ok valueFr =>
                  let commitment := H (privateItemsFr ++ [slot]) NOTE_HASH
                  let raw := H [commitment, valueFr] NOTE_HASH
                  .ok { rawNoteHash := some raw, rawNoteHashStr := some (frToString raw) }
          else
            match mapEx stringToFr items with
            | .error e => .error e
            | .ok itemsFr =>
              let raw := H (itemsFr ++ [slot]) NOTE_HASH
              .ok { rawNoteHash := some raw, rawNoteHashStr := some (frToString raw) }

/-- The siloing step of `computeNoteHash` (note.ts lines 467-480): when no
siloed hash is set yet, a contract address is truthy and a raw hash is
available, the siloed hash is the separator hash of the normalized
contract-address field and the raw hash. -/
def siloStage (H : List Nat → Nat → Nat) (q : NoteHashParams)
    (st : NoteHashState) : Except Err NoteHashState :=
  match st.siloedNoteHash, st.rawNoteHash with
  | none, some raw =>
    if truthy q.contractAddress then
      match aztecAddressToField (normalizeAddress (q.contractAddress.getD "")) with
      | .error e => .error e
      | .ok contractAddrFr =>
        let sv := H [contractAddrFr, raw] SILOED_NOTE_HASH
        .ok { st with siloedNoteHash := some sv, siloedNoteHashStr := some (frToString sv) }
    else .ok st
  | _, _ => .ok st

/-- JavaScript truthiness of the optional hash strings held in the local
state (they are `undefined` or nonempty in every reachable state). -/
def truthyS : Option String → Bool
  | some s => !s.toList.isEmpty
  | none => false

/-- The tail of `computeNoteHash` (note.ts lines 482-520): return the bare
raw-hash string when nothing else was computed or requested, otherwise
compute the unique hash when a nonce is given (requiring an available
siloed hash) and assemble the result object from the truthy strings. -/
def finishNoteHash (H : List Nat → Nat → Nat) (q : NoteHashParams)
    (st : NoteHashState) : Except Err NoteHashResult :=
  if truthyS st.rawNoteHashStr && !truthyS st.siloedNoteHashStr && !truthy q.noteNonce then
    .ok (.bare (st.rawNoteHashStr.getD ""))
  else
    let uniq : Except Err (Option String) :=
      if truthy q.noteNonce then
        match st.siloedNoteHash with
        | none => .error .uniqueRequiresSiloed
        | some sv =>
          match stringToFr (q.noteNonce.getD "") with
          | .error e => .error e
          | .ok nonceFr => .ok (some (frToString (H [nonceFr, sv] UNIQUE_NOTE_HASH)))
      else .ok none
    match uniq with
    | .error e => .error e
    | .ok uniqueNoteHashStr =>
      .ok (.obj
        (if truthyS st.rawNoteHashStr then st.rawNoteHashStr else none)
        (if truthyS st.siloedNoteHashStr then st.siloedNoteHashStr else none)
        (if truthyS uniqueNoteHashStr then uniqueNoteHashStr else none))

/-- `NoteUtils.computeNoteHash`: starting-point selection, optional
siloing, optional unique hash, and result assembly. -/
def computeNoteHash (H : List Nat → Nat → Nat) (q : NoteHashParams) :
    Except Err NoteHashResult :=
  match startingPoint H q with
  | .error e => .error e
  | .ok st =>
    match siloStage H q st with
    | .error e => .error e
    | .ok st2 => finishNoteHash H q st2

/-! ## Private-log decryption (cli/utils/log.ts) -/

/-- Modelled from the spec: the SDK constant `PRIVATE_LOG_CIPHERTEXT_LEN`
(`@aztec/constants`, not part of this repository), the fixed element count
of a private-log ciphertext.  No claim depends on its particular value. -/
def PRIVATE_LOG_CIPHERTEXT_LEN : Nat := 17

/-- An elliptic-curve point of the external SDK, of which the embedded
code only reads the two coordinates. -/
structure Point where
  x : Nat
  y : Nat
  deriving DecidableEq, Repr

/-- The external cryptographic collaborators of `decryptRawPrivateLog`,
kept opaque: the poseidon2 separator hash, curve-point reconstruction
(`Point.fromXAndSign`, which throws on an x-coordinate not on the curve,
modelled by `none`), the recipient complete-address parsing and preaddress
derivation, the two key derivations, ECDH, and AES-128-CBC decryption
(which throws on bad padding, modelled by `none`; its arguments follow the
source call `decryptBufferCBC(data, iv, key)`). -/
structure CryptoOps where
  poseidon2 : List Nat → Nat → Nat
  fromXAndSign : Nat → Bool → Option Point
  preaddressOf : String → Option Nat
  deriveIvsk : Nat → Nat
  addressSecret : Nat → Nat → Nat
  ecdh : Nat → Point → Option Point
  aesDecCBC : List Nat → List Nat → List Nat → Option (List Nat)

/-- `LogUtils.fieldsToBytes`: for each field of the list, push bytes 1 to
31 of its 32-byte buffer (31 bytes per field, the leading byte skipped). -/
def fieldsToBytes (fields : List Nat) : List Nat :=
  (fields.map (fun f =>
    (List.range 31).map (fun i => (fieldToBytes32 f).getD (1 + i) 0))).flatten

/-- Chunking with explicit fuel (one unit per chunk suffices; the fuel is
instantiated with the list length, which is an upper bound on the number
of chunks). -/
def chunksAux (size : Nat) : Nat → List Nat → List (List Nat)
  | 0, _ => []
  | _, [] => []
  | fuel + 1, bs => bs.take size :: chunksAux size fuel (bs.drop size)

/-- `LogUtils.bytesToFields`: split the byte stream into 32-byte chunks
(the final chunk may be shorter; `Buffer.slice` clamps) and read each as a
big-endian field element; the `Fr` constructor rejects a chunk value at or
above the modulus. -/
def bytesToFields (bytes : List Nat) : Except Err (List Nat) :=
  mapEx (fun chunk =>
      let n := beBytesToNat chunk
      if n < frModulus then .ok n else .error .frOutOfRange)
    (chunksAux 32 bytes.length bytes)

/-- A symmetric (key, iv) pair. -/
structure KeyIv where
  key : List Nat
  iv : List Nat
  deriving DecidableEq, Repr

/-- `LogUtils.deriveAesSymmetricKeyAndIv`: hash the shared-secret
coordinates under two index-shifted separators and take the last 16 bytes
of each 32-byte big-endian output, little end first. -/
def deriveAesSymmetricKeyAndIv (ops : CryptoOps) (sharedSecret : Point)
    (index : Nat) : KeyIv :=
  let kShift := index * 256
  let separator1 := kShift + SYMMETRIC_KEY
  let separator2 := kShift + SYMMETRIC_KEY_2
  let rand1Bytes := fieldToBytes32 (ops.poseidon2 [sharedSecret.x, sharedSecret.y] separator1)
  let rand2Bytes := fieldToBytes32 (ops.poseidon2 [sharedSecret.x, sharedSecret.y] separator2)
  { key := (List.range 16).map (fun i => rand1Bytes.getD (31 - i) 0),
    iv := (List.range 16).map (fun i => rand2Bytes.getD (31 - i) 0) }

/-- The parameters of `LogUtils.decryptRawPrivateLog`, as extracted from
the parsed JSON parameter record. -/
structure DecryptParams where
  ciphertext : Option (List String) := none
  recipientAddress : Option String := none
  recipientSecretKey : Option String := none

/-- `LogUtils.decryptRawPrivateLog`: validate the parameters, parse the
ciphertext fields, repack all fields after the ephemeral x-coordinate into
a 31-bytes-per-field stream, reconstruct the ephemeral key from the
x-coordinate and the stream's first byte, derive the shared secret and the
two (key, iv) pairs, decrypt the 16-byte header at stream offset 1, read
the 2-byte big-endian body length from it, decrypt that many bytes of the
body region at stream offset 17, and repack the plaintext into 32-byte
fields rendered as hex strings. -/
def decryptRawPrivateLog (ops : CryptoOps) (q : DecryptParams) :
    Except Err (List String) :=
  match q.ciphertext with
  | none => .error (.missingParameter "ciphertext")
  | some ciphertextFields =>
    if ciphertextFields.length ≠ PRIVATE_LOG_CIPHERTEXT_LEN then .error .lengthMismatch
    else if !truthy q.recipientAddress then .error (.missingParameter "recipientAddress")
    else if !truthy q.recipientSecretKey then .error (.missingParameter "recipientSecretKey")
    else
      match mapEx stringToFr ciphertextFields with
      | .error e => .error e
      | .ok ciphertext =>
        let ephPkX := ciphertext.getD 0 0
        let ciphertextWithoutEphPkX := ciphertext.drop 1
        let ciphertextBytes := fieldsToBytes ciphertextWithoutEphPkX
        let ephPkSignByte := ciphertextBytes.getD 0 0
        let ephPkSign : Bool := ephPkSignByte ≠ 0
        match ops.fromXAndSign ephPkX ephPkSign with
        | none => .error .invalidPoint
        | some ephPk =>
          match ops.preaddressOf (q.recipientAddress.getD "") with
          | none => .error .invalidAddress
          | some preaddress =>
            match stringToFr (q.recipientSecretKey.getD "") with
            | .error e => .error e
            | .ok skFr =>
              let recipientIvskM := ops.deriveIvsk skFr
              let addrSecret := ops.addressSecret preaddress recipientIvskM
              match ops.ecdh addrSecret ephPk with
              | none => .error .invalidPoint
              | some sharedSecret =>
                let headerKeyIv := deriveAesSymmetricKeyAndIv ops sharedSecret 1
                let bodyKeyIv := deriveAesSymmetricKeyAndIv ops sharedSecret 0
                let headerCiphertext := ((ciphertextBytes.drop 1).take 16)
                match ops.aesDecCBC headerCiphertext headerKeyIv.iv headerKeyIv.key with
                | none => .error .badPadding
                | some headerPlaintext =>
                  let ciphertextLength :=
                    ((headerPlaintext.getD 0 0) <<< 8) ||| (headerPlaintext.getD 1 0)
                  let ciphertextWithPadding := ciphertextBytes.drop 17
                  let actualCiphertext := ciphertextWithPadding.take ciphertextLength
                  match ops.aesDecCBC actualCiphertext bodyKeyIv.iv bodyKeyIv.key with
                  | none => .error .badPadding
                  | some plaintextBytes =>
                    match bytesToFields plaintextBytes with
                    | .error e => .error e
                    | .ok plaintextFields => .ok (plaintextFields.map frToString)

/-! ## Helper lemmas -/

lemma beDigits_length (base w : Nat) : ∀ n, (beDigits base w n).length = w := by
  induction w with
  | zero => intro n; rfl
  | succ w ih => intro n; simp [beDigits, ih]

lemma beDigits_lt (base w : Nat) (hb : 0 < base) :
    ∀ n, ∀ d ∈ beDigits base w n, d < base := by
  induction w with
  | zero => intro n d hd; simp [beDigits] at hd
  | succ w ih =>
    intro n d hd
    simp only [beDigits, List.mem_cons] at hd
    rcases hd with h | h
    · exact h ▸ Nat.mod_lt _ hb
    · exact ih _ d h

lemma beDigits_foldl (base : Nat) (hb : 0 < base) :
    ∀ (w n a : Nat), n < base ^ w →
      (beDigits base w n).foldl (fun acc d => base * acc + d) a = a * base ^ w + n := by
  intro w
  induction w with
  | zero =>
    intro n a h
    simp only [pow_zero] at h
    interval_cases n
    simp [beDigits]
  | succ w ih =>
    intro n a h
    have hpow : 0 < base ^ w := pow_pos hb w
    simp only [beDigits, List.foldl_cons]
    rw [ih (n % base ^ w) _ (Nat.mod_lt _ hpow)]
    have h1 : n / base ^ w < base := by
      apply Nat.div_lt_of_lt_mul
      rw [← pow_succ]
      exact h
    rw [Nat.mod_eq_of_lt h1]
    have h2 : base ^ w * (n / base ^ w) + n % base ^ w = n := Nat.div_add_mod n (base ^ w)
    rw [pow_succ]
    nlinarith [h2]

lemma hexVal_hexDigitChar (d : Nat) (h : d < 16) : hexVal (hexDigitChar d) = d := by
  interval_cases d <;> decide

lemma isHexDigit_hexDigitChar (d : Nat) (h : d < 16) : isHexDigit (hexDigitChar d) = true := by
  interval_cases d <;> decide

lemma foldl_hexVal_map (ds : List Nat) (h : ∀ d ∈ ds, d < 16) :
    ∀ a, (ds.map hexDigitChar).foldl (fun acc c => 16 * acc + hexVal c) a
      = ds.foldl (fun acc d => 16 * acc + d) a := by
  induction ds with
  | nil => intro a; rfl
  | cons d ds ih =>
    intro a
    simp only [List.map_cons, List.foldl_cons]
    rw [hexVal_hexDigitChar d (h d (List.mem_cons_self d ds))]
    exact ih (fun x hx => h x (List.mem_cons_of_mem d hx)) _

lemma frToString_toList (v : Nat) :
    (frToString v).toList = Char.ofNat 48 :: Char.ofNat 120 :: (beDigits 16 64 v).map hexDigitChar :=
  rfl

lemma frToString_data (v : Nat) :
    (frToString v).data = Char.ofNat 48 :: Char.ofNat 120 :: (beDigits 16 64 v).map hexDigitChar :=
  rfl

/-- Rendering a field element and parsing it back is the identity. -/
lemma stringToFr_frToString (v : Nat) (h : v < frModulus) :
    stringToFr (frToString v) = .ok v := by
  have hlt : v < 16 ^ 64 := lt_trans h (by norm_num [frModulus])
  have hpre : hexPrefixed (frToString v) = true := rfl
  have hdrop : (frToString v).toList.drop 2 = (beDigits 16 64 v).map hexDigitChar := rfl
  have hlen : ((beDigits 16 64 v).map hexDigitChar).length = 64 := by
    simp [beDigits_length]
  have hall : ((beDigits 16 64 v).map hexDigitChar).all isHexDigit = true := by
    rw [List.all_eq_true]
    intro c hc
    rw [List.mem_map] at hc
    obtain ⟨d, hd, rfl⟩ := hc
    exact isHexDigit_hexDigitChar d (beDigits_lt 16 64 (by norm_num) v d hd)
  have hval : hexCharsToNat ((beDigits 16 64 v).map hexDigitChar) = v := by
    unfold hexCharsToNat
    rw [foldl_hexVal_map _ (beDigits_lt 16 64 (by norm_num) v)]
    have := beDigits_foldl 16 (by norm_num) 64 v 0 hlt
    simpa using this
  have hbig : bigIntOfHex ((beDigits 16 64 v).map hexDigitChar) = some v := by
    unfold bigIntOfHex
    rw [if_neg, if_pos hall, hval]
    intro hempty
    rw [List.isEmpty_eq_true] at hempty
    rw [hempty] at hlen
    simp at hlen
  simp only [stringToFr, hpre, if_true, hdrop, hlen, hbig]
  norm_num [h]

/-- Shift-or of two bytes is big-endian recomposition. -/
lemma shiftLeft_or_byte (a b : Nat) (hb : b < 256) : (a <<< 8) ||| b = 256 * a + b := by
  have hb2 : b < 2 ^ 8 := hb
  have : (a <<< 8) ||| b = 2 ^ 8 * a + b := by
    apply Nat.eq_of_testBit_eq
    intro i
    rw [Nat.testBit_lor, Nat.testBit_shiftLeft, Nat.testBit_mul_pow_two_add a hb2]
    rcases Nat.lt_or_ge i 8 with hi | hi
    · simp [hi, Nat.not_le.mpr hi]
    · simp [hi, Nat.le_of_lt,
        Nat.testBit_lt_two_pow (lt_of_lt_of_le hb2 (Nat.pow_le_pow_right (by norm_num) hi))]
  simpa using this

lemma mapEx_append (f : α → Except Err β) (l1 l2 : List α) :
    mapEx f (l1 ++ l2) =
      match mapEx f l1 with
      | .error e => .error e
      | .ok r1 =>
        match mapEx f l2 with
        | .error e => .error e
        | .ok r2 => .ok (r1 ++ r2) := by
  induction l1 with
  | nil =>
    cases h : mapEx f l2 <;> simp [mapEx, h]
  | cons a as ih =>
    cases hfa : f a with
    | error e => simp [mapEx, hfa]
    | ok b =>
      simp only [List.cons_append, mapEx, hfa, List.append_eq]
      rw [ih]
      cases mapEx f as <;> cases mapEx f l2 <;> rfl

lemma mapEx_ok_length (f : α → Except Err β) :
    ∀ (l : List α) (r : List β), mapEx f l = .ok r → r.length = l.length := by
  intro l
  induction l with
  | nil =>
    intro r h
    simp only [mapEx] at h
    cases h
    rfl
  | cons a as ih =>
    intro r h
    simp only [mapEx] at h
    cases hfa : f a with
    | error e => rw [hfa] at h; cases h
    | ok b =>
      rw [hfa] at h
      cases hm : mapEx f as with
      | error e => rw [hm] at h; cases h
      | ok bs =>
        rw [hm] at h
        cases h
        simp [ih bs hm]

/-- The by-index formulation of one 31-byte unit of `fieldsToBytes` equals
dropping the leading byte. -/
lemma map_range_getD_drop (l : List Nat) (h : l.length = 32) :
    (List.range 31).map (fun i => l.getD (1 + i) 0) = l.drop 1 := by
  apply List.ext_getElem
  · simp [h]
  · intro n h1 h2
    simp only [List.getElem_map, List.getElem_range, List.getElem_drop]
    rw [List.getD_eq_getElem l 0 (by simp [h]; simp [List.length_map, List.length_range] at h1; omega)]

lemma truthyS_frToString (v : Nat) : truthyS (some (frToString v)) = true := rfl

lemma truthy_frToString (v : Nat) : truthy (some (frToString v)) = true := rfl

lemma truthyS_eq_truthy (s : Option String) : truthyS s = truthy s := by
  cases s <;> rfl

lemma truthy_none : truthy none = false := rfl

lemma truthyS_none : truthyS none = false := rfl

lemma dropLast_append_getLastD (l : List α) (d : α) (h : l ≠ []) :
    l.dropLast ++ [l.getLastD d] = l := by
  have hd : l.getLastD d = l.getLast h := by
    rw [List.getLastD_eq_getLast?, List.getLast?_eq_getLast l h]
    rfl
  rw [hd]
  exact List.dropLast_append_getLast h

lemma mapEx_concat_ok (f : α → Except Err β) (l1 : List α) (a : α) (r : List β)
    (h : mapEx f (l1 ++ [a]) = .ok r) :
    ∃ r1 b, mapEx f l1 = .ok r1 ∧ f a = .ok b ∧ r = r1 ++ [b] := by
  rw [mapEx_append] at h
  cases h1 : mapEx f l1 with
  | error e => rw [h1] at h; cases h
  | ok r1 =>
    rw [h1] at h
    cases h2 : f a with
    | error e => simp [mapEx, h2] at h
    | ok b =>
      simp [mapEx, h2] at h
      exact ⟨r1, b, rfl, rfl, h.symm⟩

/-- The per-field loop of `fieldsToBytes` takes exactly the last 31 bytes
of each 32-byte big-endian encoding. -/
lemma fieldsToBytes_eq (l : List Nat) :
    fieldsToBytes l = (l.map (fun f => (fieldToBytes32 f).drop 1)).flatten := by
  unfold fieldsToBytes
  have hmaps : l.map (fun f => (List.range 31).map (fun i => (fieldToBytes32 f).getD (1 + i) 0))
      = l.map (fun f => (fieldToBytes32 f).drop 1) :=
    List.map_congr_left (fun f _ => map_range_getD_drop _ (beDigits_length 256 32 f))
  rw [hmaps]

/-- The byte stream of the specification's wire layout: every ciphertext
field after the ephemeral x-coordinate contributes 31 bytes, obtained by
dropping the leading byte of its 32-byte big-endian encoding. -/
def specStream (fs : List Nat) : List Nat :=
  ((fs.drop 1).map (fun f => (fieldToBytes32 f).drop 1)).flatten

lemma stringToFr_err_ne (s : String) : stringToFr s ≠ Except.error Err.decryptionFailed := by
  intro h
  unfold stringToFr bigIntOfHex at h
  dsimp only at h
  repeat' split at h
  all_goals simp at h

lemma mapEx_err_ne (f : α → Except Err β) (hf : ∀ a, f a ≠ Except.error Err.decryptionFailed) :
    ∀ l, mapEx f l ≠ Except.error Err.decryptionFailed := by
  intro l
  induction l with
  | nil => simp [mapEx]
  | cons a as ih =>
    intro h
    simp only [mapEx] at h
    cases hfa : f a with
    | error e =>
      rw [hfa] at h
      injection h with he
      exact hf a (by rw [hfa, he])
    | ok b =>
      rw [hfa] at h
      cases hm : mapEx f as with
      | error e =>
        rw [hm] at h
        injection h with he
        exact ih (by rw [hm, he])
      | ok bs =>
        rw [hm] at h
        cases h

lemma bytesToFields_err_ne (bs : List Nat) :
    bytesToFields bs ≠ Except.error Err.decryptionFailed := by
  apply mapEx_err_ne
  intro a
  dsimp only
  split <;> simp

deriving instance DecidableEq for Except

/-! ## Claims -/

/-- Claim C8: for every string beginning with the 0x prefix, stringToFr
(parseField) fails with InvalidHexDigits exactly when the digit count
after the prefix is odd; when even, the digits parse as a big-endian
integer, so leading-zero-padded forms are equal: parsing 0x01 equals
parsing the same value zero-padded to 64 digits, while parsing 0x1 fails
with InvalidHexDigits. -/
theorem parseField_hex_even_odd (s : String) (h : hexPrefixed s = true) :
    (stringToFr s = .error .invalidHexDigits ↔ (s.toList.drop 2).length % 2 = 1)
    ∧ ((s.toList.drop 2).length % 2 = 0 → s.toList.drop 2 ≠ [] →
        (s.toList.drop 2).all isHexDigit = true →
        hexCharsToNat (s.toList.drop 2) < frModulus →
        stringToFr s = .ok (hexCharsToNat (s.toList.drop 2)))
    ∧ stringToFr "0x01"
        = stringToFr "0x0000000000000000000000000000000000000000000000000000000000000001"
    ∧ stringToFr "0x01" = .ok 1
    ∧ stringToFr "0x1" = .error .invalidHexDigits := by
  refine ⟨⟨?_, ?_⟩, ?_, by decide, by decide, by decide⟩
  · intro he
    by_cases hlen : (s.toList.drop 2).length % 2 = 0
    · exfalso
      simp only [stringToFr, h, if_true] at he
      rw [if_neg (by omega)] at he
      repeat' split at he
      all_goals simp at he
    · omega
  · intro hp
    simp only [stringToFr, h, if_true]
    rw [if_pos (by omega)]
  · intro hp hne hall hlt
    have hb : bigIntOfHex (s.toList.drop 2) = some (hexCharsToNat (s.toList.drop 2)) := by
      unfold bigIntOfHex
      rw [if_neg, if_pos hall]
      intro hempty
      exact hne (List.isEmpty_eq_true.mp hempty)
    simp only [stringToFr, h, if_true]
    rw [if_neg (by omega), hb]
    dsimp only
    rw [if_pos hlt]

/-- Witness for C8 at the concrete input 0x0abc. -/
theorem parseField_hex_even_odd_witness : stringToFr "0x0abc" = .ok 2748 := by
  have h := (parseField_hex_even_odd "0x0abc" (by decide)).2.1
    (by decide) (by decide) (by decide) (by decide)
  have hv : hexCharsToNat ("0x0abc".toList.drop 2) = 2748 := by decide
  rw [hv] at h
  exact h

/-- Claim C1: with neither a siloedNoteHash nor a rawNoteHash input and
noteItems and storageSlot present, the standard-mode raw hash is the
NOTE_HASH separator hash of the items followed by the slot; the
partial-mode raw hash (n at least 2 items) nests a commitment over all
items but the last; and partial mode with fewer than 2 items fails with
PartialRequiresTwoItems. -/
theorem computeNoteHash_from_items (H : List Nat → Nat → Nat) (items : List String)
    (slotStr : String) (slot : Nat) (hslot : stringToFr slotStr = .ok slot) :
    (∀ itemsFr, mapEx stringToFr items = .ok itemsFr →
       computeNoteHash H { noteItems := some items, storageSlot := some slotStr }
         = .ok (.bare (frToString (H (itemsFr ++ [slot]) NOTE_HASH))))
    ∧ (∀ itemsFr, mapEx stringToFr items = .ok itemsFr → 2 ≤ items.length →
       computeNoteHash H
           { noteItems := some items, storageSlot := some slotStr, partialMode := true }
         = .ok (.bare (frToString
             (H [H (itemsFr.dropLast ++ [slot]) NOTE_HASH, itemsFr.getLastD 0] NOTE_HASH))))
    ∧ (items.length < 2 →
       computeNoteHash H
           { noteItems := some items, storageSlot := some slotStr, partialMode := true }
         = .error .partialRequiresTwoItems) := by
  refine ⟨?_, ?_, ?_⟩
  · intro itemsFr hitems
    simp [computeNoteHash, startingPoint, siloStage, finishNoteHash, truthy, truthyS,
      hslot, hitems, frToString_data]
  · intro itemsFr hitems hlen
    have hne : items ≠ [] := by
      intro h0
      rw [h0] at hlen
      simp at hlen
    have hsplit := dropLast_append_getLastD items "" hne
    rw [← hsplit] at hitems
    obtain ⟨r1, b, h1, h2, rfl⟩ := mapEx_concat_ok _ _ _ _ hitems
    have hge : ¬ items.length < 2 := by omega
    simp only [List.getLastD_eq_getLast?] at h2
    simp only [List.dropLast_concat, List.getLastD_concat]
    simp [computeNoteHash, startingPoint, siloStage, finishNoteHash, truthy, truthyS,
      hslot, h1, h2, hge, frToString_data]
  · intro hlt
    simp [computeNoteHash, startingPoint, truthy, hslot, hlt]

/-- The hash stand-in used by the concrete witnesses: a sum of inputs and
separator, reduced into the field. -/
def witnessHash : List Nat → Nat → Nat := fun l s => (l.sum + s) % frModulus

/-- Witness for C1 at two concrete items and a concrete slot. -/
theorem computeNoteHash_from_items_witness :
    computeNoteHash witnessHash
        { noteItems := some ["0x01", "0x02"], storageSlot := some "0x07" }
      = .ok (.bare (frToString (witnessHash ([1, 2] ++ [7]) NOTE_HASH))) :=
  (computeNoteHash_from_items witnessHash ["0x01", "0x02"] "0x07" 7 (by decide)).1
    [1, 2] (by decide)

/-- Claim C10: partial-mode and standard-mode raw hashes alias within the
same NOTE_HASH domain: for at least two items, the partial-mode hash over
(items, slot) equals the standard-mode hash over the single-item list
holding the rendered commitment, with the last item playing the role of
the storage slot, because both partial-mode steps reuse the NOTE_HASH
separator. -/
theorem partial_aliases_standard (H : List Nat → Nat → Nat)
    (hH : ∀ l s, H l s < frModulus)
    (items : List String) (slotStr : String) (slot : Nat) (itemsFr : List Nat)
    (hslot : stringToFr slotStr = .ok slot)
    (hitems : mapEx stringToFr items = .ok itemsFr)
    (hlen : 2 ≤ items.length) :
    computeNoteHash H
        { noteItems := some items, storageSlot := some slotStr, partialMode := true }
      = computeNoteHash H
          { noteItems := some [frToString (H (itemsFr.dropLast ++ [slot]) NOTE_HASH)],
            storageSlot := some (items.getLastD "") } := by
  have hne : items ≠ [] := by
    intro h0
    rw [h0] at hlen
    simp at hlen
  rw [← dropLast_append_getLastD items "" hne] at hitems
  obtain ⟨r1, b, h1, h2, rfl⟩ := mapEx_concat_ok _ _ _ _ hitems
  have hge : ¬ items.length < 2 := by omega
  have hc : mapEx stringToFr [frToString (H (r1 ++ [slot]) NOTE_HASH)]
      = .ok [H (r1 ++ [slot]) NOTE_HASH] := by
    simp [mapEx, stringToFr_frToString _ (hH _ _)]
  simp only [List.getLastD_eq_getLast?] at h2
  simp only [List.dropLast_concat, List.getLastD_eq_getLast?]
  simp [computeNoteHash, startingPoint, siloStage, finishNoteHash, truthy, truthyS,
    hslot, h1, h2, hc, hge, frToString_data]

/-- Witness for C10 at three concrete items and a concrete slot. -/
theorem partial_aliases_standard_witness :
    computeNoteHash witnessHash
        { noteItems := some ["0x01", "0x02", "0x03"], storageSlot := some "0x07",
          partialMode := true }
      = computeNoteHash witnessHash
          { noteItems := some [frToString (witnessHash [1, 2, 7] NOTE_HASH)],
            storageSlot := some "0x03" } := by
  have h := partial_aliases_standard witnessHash
    (fun l s => Nat.mod_lt _ (by decide))
    ["0x01", "0x02", "0x03"] "0x07" 7 [1, 2, 3] (by decide) (by decide) (by decide)
  simpa using h

/-- Claim C5: output contract of computeNoteHash: when only the raw hash
is available and no nonce is requested the result is the bare scalar
string; otherwise the result is an object containing exactly those of
rawNoteHash, siloedNoteHash and uniqueNoteHash that were computed or
supplied, and no others. -/
theorem computeNoteHash_output_shape (H : List Nat → Nat → Nat)
    (rs ss c nn : String) (rv sv caddr nv : Nat)
    (hrt : truthy (some rs) = true) (hrv : stringToFr rs = .ok rv)
    (hst : truthy (some ss) = true) (hsv : stringToFr ss = .ok sv)
    (hct : truthy (some c) = true)
    (hcv : aztecAddressToField (normalizeAddress c) = .ok caddr)
    (hnt : truthy (some nn) = true) (hnv : stringToFr nn = .ok nv) :
    computeNoteHash H { rawNoteHash := some rs } = .ok (.bare rs)
    ∧ computeNoteHash H { rawNoteHash := some rs, contractAddress := some c }
        = .ok (.obj (some rs) (some (frToString (H [caddr, rv] SILOED_NOTE_HASH))) none)
    ∧ computeNoteHash H
          { rawNoteHash := some rs, contractAddress := some c, noteNonce := some nn }
        = .ok (.obj (some rs) (some (frToString (H [caddr, rv] SILOED_NOTE_HASH)))
            (some (frToString (H [nv, H [caddr, rv] SILOED_NOTE_HASH] UNIQUE_NOTE_HASH))))
    ∧ computeNoteHash H { siloedNoteHash := some ss, contractAddress := some c }
        = .ok (.obj none (some ss) none)
    ∧ computeNoteHash H
          { siloedNoteHash := some ss, contractAddress := some c, noteNonce := some nn }
        = .ok (.obj none (some ss) (some (frToString (H [nv, sv] UNIQUE_NOTE_HASH)))) := by
  refine ⟨?_, ?_, ?_, ?_, ?_⟩ <;>
    simp [computeNoteHash, startingPoint, siloStage, finishNoteHash,
      truthy_none, truthyS_none, truthyS_eq_truthy, truthy_frToString,
      hrt, hrv, hst, hsv, hct, hcv, hnt, hnv]

/-- Witness for C5 at concrete raw hash and contract address. -/
theorem computeNoteHash_output_shape_witness :
    computeNoteHash witnessHash { rawNoteHash := some "0x05", contractAddress := some "0x0f" }
      = .ok (.obj (some "0x05") (some (frToString (witnessHash [15, 5] SILOED_NOTE_HASH))) none) :=
  (computeNoteHash_output_shape witnessHash "0x05" "0x06" "0x0f" "0x09" 5 6 15 9
    (by decide) (by decide) (by decide) (by decide) (by decide) (by decide)
    (by decide) (by decide)).2.1

/-- Claim C6: the starting point is selected by fixed priority: a supplied
siloedNoteHash wins and requires a contract address (else
SiloRequiresContract); otherwise a supplied rawNoteHash; the
lower-priority inputs are ignored (the results hold for arbitrary
lower-priority inputs, parseable or not) and the ignored stages are
absent from the output. -/
theorem computeNoteHash_priority (H : List Nat → Nat → Nat)
    (ss rs : String) (c : String) (sv rv : Nat)
    (itemsOpt : Option (List String)) (slotOpt : Option String)
    (nonceOpt : Option String) (pm : Bool)
    (hst : truthy (some ss) = true) (hsv : stringToFr ss = .ok sv)
    (hct : truthy (some c) = true)
    (hrt : truthy (some rs) = true) (hrv : stringToFr rs = .ok rv) :
    computeNoteHash H
        { siloedNoteHash := some ss, rawNoteHash := some rs, noteItems := itemsOpt,
          storageSlot := slotOpt, partialMode := pm, contractAddress := none,
          noteNonce := nonceOpt }
      = .error .siloRequiresContract
    ∧ computeNoteHash H
        { siloedNoteHash := some ss, rawNoteHash := some rs, noteItems := itemsOpt,
          storageSlot := slotOpt, partialMode := pm, contractAddress := some c }
      = .ok (.obj none (some ss) none)
    ∧ computeNoteHash H
        { rawNoteHash := some rs, noteItems := itemsOpt, storageSlot := slotOpt,
          partialMode := pm }
      = .ok (.bare rs) := by
  refine ⟨?_, ?_, ?_⟩ <;>
    simp [computeNoteHash, startingPoint, siloStage, finishNoteHash,
      truthy_none, truthyS_none, truthyS_eq_truthy,
      hst, hsv, hct, hrt, hrv]

/-- Witness for C6 at concrete inputs, with unparseable lower-priority
items present and ignored. -/
theorem computeNoteHash_priority_witness :
    computeNoteHash witnessHash
        { siloedNoteHash := some "0x06", rawNoteHash := some "0x05",
          noteItems := some ["not hex", "0x1"], storageSlot := some "0x1",
          partialMode := true, contractAddress := some "0x0f" }
      = .ok (.obj none (some "0x06") none) :=
  (computeNoteHash_priority witnessHash "0x06" "0x05" "0x0f" 6 5
    (some ["not hex", "0x1"]) (some "0x1") none true
    (by decide) (by decide) (by decide) (by decide) (by decide)).2.1

/-- Claim C7: when a noteNonce is supplied and no siloed hash is available
(neither given nor computable from a contract address) computeNoteHash
fails with UniqueRequiresSiloed; when one is available, the unique hash is
the UNIQUE_NOTE_HASH separator hash of the nonce and the siloed hash. -/
theorem computeNoteHash_unique_stage (H : List Nat → Nat → Nat)
    (rs nn ss c slotStr : String) (items : List String)
    (rv nv sv caddr slot : Nat) (itemsFr : List Nat)
    (hrt : truthy (some rs) = true) (hrv : stringToFr rs = .ok rv)
    (hnt : truthy (some nn) = true) (hnv : stringToFr nn = .ok nv)
    (hst : truthy (some ss) = true) (hsv : stringToFr ss = .ok sv)
    (hct : truthy (some c) = true)
    (hcv : aztecAddressToField (normalizeAddress c) = .ok caddr)
    (hslot : stringToFr slotStr = .ok slot)
    (hitems : mapEx stringToFr items = .ok itemsFr) :
    computeNoteHash H { rawNoteHash := some rs, noteNonce := some nn }
      = .error .uniqueRequiresSiloed
    ∧ computeNoteHash H
        { noteItems := some items, storageSlot := some slotStr, noteNonce := some nn }
      = .error .uniqueRequiresSiloed
    ∧ computeNoteHash H
        { rawNoteHash := some rs, contractAddress := some c, noteNonce := some nn }
      = .ok (.obj (some rs) (some (frToString (H [caddr, rv] SILOED_NOTE_HASH)))
          (some (frToString (H [nv, H [caddr, rv] SILOED_NOTE_HASH] UNIQUE_NOTE_HASH))))
    ∧ computeNoteHash H
        { siloedNoteHash := some ss, contractAddress := some c, noteNonce := some nn }
      = .ok (.obj none (some ss) (some (frToString (H [nv, sv] UNIQUE_NOTE_HASH)))) := by
  refine ⟨?_, ?_, ?_, ?_⟩ <;>
    simp [computeNoteHash, startingPoint, siloStage, finishNoteHash,
      truthy_none, truthyS_none, truthyS_eq_truthy, truthy_frToString,
      hrt, hrv, hnt, hnv, hst, hsv, hct, hcv, hslot, hitems]

/-- Witness for C7: a nonce without any siloed hash fails. -/
theorem computeNoteHash_unique_stage_witness :
    computeNoteHash witnessHash { rawNoteHash := some "0x05", noteNonce := some "0x09" }
      = .error .uniqueRequiresSiloed :=
  (computeNoteHash_unique_stage witnessHash "0x05" "0x09" "0x06" "0x0f" "0x07"
    ["0x01"] 5 9 6 15 7 [1]
    (by decide) (by decide) (by decide) (by decide) (by decide) (by decide)
    (by decide) (by decide) (by decide) (by decide)).1

/-- Claim C9: the three stages use the fixed pairwise distinct
domain-separation tags: the raw hash passes NOTE_HASH, the siloed hash
SILOED_NOTE_HASH and the unique hash UNIQUE_NOTE_HASH to the
separator-taking hash. -/
theorem computeNoteHash_domain_separators (H : List Nat → Nat → Nat)
    (items : List String) (slotStr c nn : String)
    (slot caddr nv : Nat) (itemsFr : List Nat)
    (hslot : stringToFr slotStr = .ok slot)
    (hitems : mapEx stringToFr items = .ok itemsFr)
    (hct : truthy (some c) = true)
    (hcv : aztecAddressToField (normalizeAddress c) = .ok caddr)
    (hnt : truthy (some nn) = true) (hnv : stringToFr nn = .ok nv) :
    computeNoteHash H
        { noteItems := some items, storageSlot := some slotStr,
          contractAddress := some c, noteNonce := some nn }
      = .ok (.obj
          (some (frToString (H (itemsFr ++ [slot]) NOTE_HASH)))
          (some (frToString (H [caddr, H (itemsFr ++ [slot]) NOTE_HASH] SILOED_NOTE_HASH)))
          (some (frToString
            (H [nv, H [caddr, H (itemsFr ++ [slot]) NOTE_HASH] SILOED_NOTE_HASH]
              UNIQUE_NOTE_HASH))))
    ∧ NOTE_HASH ≠ SILOED_NOTE_HASH
    ∧ NOTE_HASH ≠ UNIQUE_NOTE_HASH
    ∧ SILOED_NOTE_HASH ≠ UNIQUE_NOTE_HASH := by
  refine ⟨?_, by decide, by decide, by decide⟩
  simp [computeNoteHash, startingPoint, siloStage, finishNoteHash,
    truthy_none, truthyS_none, truthyS_eq_truthy, truthy_frToString,
    hslot, hitems, hct, hcv, hnt, hnv]

/-- Witness for C9 at one concrete item, slot, contract and nonce. -/
theorem computeNoteHash_domain_separators_witness :
    computeNoteHash witnessHash
        { noteItems := some ["0x02"], storageSlot := some "0x07",
          contractAddress := some "0x0f", noteNonce := some "0x09" }
      = .ok (.obj
          (some (frToString (witnessHash ([2] ++ [7]) NOTE_HASH)))
          (some (frToString (witnessHash [15, witnessHash ([2] ++ [7]) NOTE_HASH]
            SILOED_NOTE_HASH)))
          (some (frToString
            (witnessHash [9, witnessHash [15, witnessHash ([2] ++ [7]) NOTE_HASH]
              SILOED_NOTE_HASH] UNIQUE_NOTE_HASH)))) :=
  (computeNoteHash_domain_separators witnessHash ["0x02"] "0x07" "0x0f" "0x09"
    7 15 9 [2] (by decide) (by decide) (by decide) (by decide) (by decide)
    (by decide)).1

/-- Claim C4: parameter validation precedes all cryptography: a ciphertext
array whose element count differs from PRIVATE_LOG_CIPHERTEXT_LEN fails
with LengthMismatch, and (for a well-sized ciphertext) an absent recipient
address or secret key fails with MissingParameter.  Each equation holds
for every choice of the external cryptographic operations, so no
cryptographic computation takes part in the outcome. -/
theorem decrypt_param_validation (ops : CryptoOps) (q : DecryptParams)
    (a : List String) (hct : q.ciphertext = some a) :
    (a.length ≠ PRIVATE_LOG_CIPHERTEXT_LEN →
       decryptRawPrivateLog ops q = .error .lengthMismatch)
    ∧ (a.length = PRIVATE_LOG_CIPHERTEXT_LEN → truthy q.recipientAddress = false →
       decryptRawPrivateLog ops q = .error (.missingParameter "recipientAddress"))
    ∧ (a.length = PRIVATE_LOG_CIPHERTEXT_LEN → truthy q.recipientAddress = true →
       truthy q.recipientSecretKey = false →
       decryptRawPrivateLog ops q = .error (.missingParameter "recipientSecretKey")) := by
  refine ⟨?_, ?_, ?_⟩
  · intro h1
    simp [decryptRawPrivateLog, hct, h1]
  · intro h1 h2
    simp [decryptRawPrivateLog, hct, h1, h2]
  · intro h1 h2 h3
    simp [decryptRawPrivateLog, hct, h1, h2, h3]

/-- The external-operation stand-ins used by the concrete witnesses. -/
def witnessOps : CryptoOps :=
  { poseidon2 := witnessHash
    fromXAndSign := fun x _ => some { x := x, y := 1 }
    preaddressOf := fun _ => some 2
    deriveIvsk := fun n => n + 1
    addressSecret := fun a b => a + b
    ecdh := fun n pt => some { x := n + pt.x, y := n }
    aesDecCBC := fun data _ _ => some (if data.length = 16 then [0, 2] else [1, 2, 3]) }

/-- Witness for C4: a one-element ciphertext is rejected for length. -/
theorem decrypt_param_validation_witness :
    decryptRawPrivateLog witnessOps
        { ciphertext := some ["0x01"], recipientAddress := some "0xaa",
          recipientSecretKey := some "0x01" }
      = .error .lengthMismatch :=
  (decrypt_param_validation witnessOps _ ["0x01"] rfl).1 (by decide)

/-- Claim C2: the decryption wire layout and data flow for well-formed
inputs: field 0 is the ephemeral public-key x-coordinate; the remaining
fields are repacked into a 31-bytes-per-field stream by dropping the
leading byte of each 32-byte big-endian encoding (specStream); byte 0 of
the stream is the sign flag; stream bytes 1 to 16 are the header
ciphertext; the decrypted header's first two bytes, read big-endian, give
the body-ciphertext length; the body region (stream offset 17) is
truncated to that length, decrypted, and the plaintext bytes are repacked
into 32-byte field elements returned in order.  Every hypothesis pins an
external operation at exactly the specification-side location of the wire
layout, and the conclusion states the implementation returns the repacked
plaintext. -/
theorem decrypt_pipeline (ops : CryptoOps) (q : DecryptParams)
    (strs : List String) (fs : List Nat) (skv pre : Nat) (pt ss : Point)
    (hp pb ptf : List Nat)
    (hct : q.ciphertext = some strs)
    (hlen : strs.length = PRIVATE_LOG_CIPHERTEXT_LEN)
    (haddr : truthy q.recipientAddress = true)
    (hkey : truthy q.recipientSecretKey = true)
    (hparse : mapEx stringToFr strs = .ok fs)
    (hpt : ops.fromXAndSign (fs.getD 0 0) (decide ((specStream fs).getD 0 0 ≠ 0)) = some pt)
    (hpre : ops.preaddressOf (q.recipientAddress.getD "") = some pre)
    (hsk : stringToFr (q.recipientSecretKey.getD "") = .ok skv)
    (hss : ops.ecdh (ops.addressSecret pre (ops.deriveIvsk skv)) pt = some ss)
    (hhdr : ops.aesDecCBC (((specStream fs).drop 1).take 16)
        (deriveAesSymmetricKeyAndIv ops ss 1).iv
        (deriveAesSymmetricKeyAndIv ops ss 1).key = some hp)
    (hbyte : hp.getD 1 0 < 256)
    (hbody : ops.aesDecCBC
        (((specStream fs).drop 17).take (256 * hp.getD 0 0 + hp.getD 1 0))
        (deriveAesSymmetricKeyAndIv ops ss 0).iv
        (deriveAesSymmetricKeyAndIv ops ss 0).key = some pb)
    (hfields : bytesToFields pb = .ok ptf) :
    decryptRawPrivateLog ops q = .ok (ptf.map frToString) := by
  have hstream : fieldsToBytes (fs.drop 1) = specStream fs := by
    rw [fieldsToBytes_eq]
    rfl
  have hlor : ((hp.getD 0 0) <<< 8) ||| (hp.getD 1 0) = 256 * hp.getD 0 0 + hp.getD 1 0 :=
    shiftLeft_or_byte _ _ hbyte
  simp only [decryptRawPrivateLog, hct, hlen, haddr, hkey, hparse, hstream,
    hpt, hpre, hsk, hss, hhdr, hlor, hbody, hfields]
  simp

/-- Witness for C2: a full concrete decryption run through the pipeline. -/
theorem decrypt_pipeline_witness :
    decryptRawPrivateLog witnessOps
        { ciphertext := some (List.replicate 17 "0x00"),
          recipientAddress := some "0xaa", recipientSecretKey := some "0x01" }
      = .ok ([66051].map frToString) := by
  refine decrypt_pipeline witnessOps _ (List.replicate 17 "0x00")
    (List.replicate 17 0) 1 2
    { x := 0, y := 1 } { x := 4, y := 4 } [0, 2] [1, 2, 3] [66051]
    rfl (by decide) (by decide) (by decide) (by decide) (by decide) (by decide)
    (by decide) (by decide) (by decide) (by decide) (by decide) (by decide)

/-- External operations whose curve-point reconstruction always fails, as
an invalid-x-coordinate library error does. -/
def opsPointFail : CryptoOps := { witnessOps with fromXAndSign := fun _ _ => none }

/-- External operations whose block-cipher decryption always fails, as a
bad-padding library error does. -/
def opsPadFail : CryptoOps := { witnessOps with aesDecCBC := fun _ _ _ => none }

/-- A well-formed decryption parameter record used to exercise the
failure paths. -/
def paramsFailureProbe : DecryptParams :=
  { ciphertext := some (List.replicate 17 "0x00"),
    recipientAddress := some "0xaa", recipientSecretKey := some "0x01" }

/-- Counterexample to C3: on the same well-formed input, a failing
curve-point reconstruction and a failing block-cipher decryption surface
as two distinct propagated errors, neither of which is the single opaque
DecryptionFailed the claim requires. -/
theorem decrypt_failures_distinguishable :
    decryptRawPrivateLog opsPointFail paramsFailureProbe = .error .invalidPoint
    ∧ decryptRawPrivateLog opsPadFail paramsFailureProbe = .error .badPadding
    ∧ Err.invalidPoint ≠ Err.decryptionFailed
    ∧ Err.badPadding ≠ Err.decryptionFailed
    ∧ Err.invalidPoint ≠ Err.badPadding := by
  refine ⟨by decide, by decide, by decide, by decide, by decide⟩

/-- Claim C3 (amended): the implementation performs no mapping of
lower-level cryptographic failures to an opaque error: no input and no
choice of external operations ever yields a DecryptionFailed error; the
underlying failure causes propagate as their own distinct errors. -/
theorem decrypt_error_propagation (ops : CryptoOps) (q : DecryptParams) :
    decryptRawPrivateLog ops q ≠ .error .decryptionFailed := by
  intro hcontra
  unfold decryptRawPrivateLog at hcontra
  dsimp only at hcontra
  repeat' split at hcontra
  all_goals try simp at hcontra
  all_goals subst hcontra
  all_goals first
    | exact mapEx_err_ne _ stringToFr_err_ne _ (by assumption)
    | exact stringToFr_err_ne _ (by assumption)
    | exact bytesToFields_err_ne _ (by assumption)

end Cazt
